import Mathlib

/-!
Verification of the large-audio chunking pipeline of the Audio-to-text
repository.  The definitions below are shallow embeddings of the
TypeScript source: byte buffers become lists of naturals (each < 256),
Float32 PCM samples become rationals, JS strings become Lean strings or
lists of characters, and the asynchronous orchestration loop becomes a
pure recursive function over the per-segment outcomes.
-/

/-! ## Constants (audioUtils: WAV header constants and chunk size) -/

def NUM_CHANNELS : ℕ := 1

def SAMPLE_RATE : ℕ := 16000

def BIT_DEPTH : ℕ := 16

/-- 180 s times 16 kHz, the fixed chunk size of processLargeAudioFile. -/
def SAMPLES_PER_CHUNK : ℕ := 180 * SAMPLE_RATE

/-! ## Little-endian byte helpers (DataView.setUint16 / setUint32) -/

/-- The two little-endian bytes DataView.setUint16 writes for x < 2^16. -/
def u16le (x : ℕ) : List ℕ := [x % 256, x / 256 % 256]

/-- The four little-endian bytes DataView.setUint32 writes for x < 2^32. -/
def u32le (x : ℕ) : List ℕ :=
  [x % 256, x / 256 % 256, x / 65536 % 256, x / 16777216 % 256]

/-- writeString: one byte per character (charCodeAt of an ASCII char). -/
def asciiBytes (s : String) : List ℕ := s.toList.map Char.toNat

/-! ## Sample conversion (floatTo16BitPCM) -/

/-- Math.max(-1, Math.min(1, x)): clamp a sample into [-1, 1]. -/
def clamp1 (s : ℚ) : ℚ := max (-1) (min 1 s)

/-- JS ToIntegerOrInfinity: truncation toward zero, as used by setInt16. -/
def ratTrunc (q : ℚ) : ℤ := if q < 0 then ⌈q⌉ else ⌊q⌋

/-- The two bytes setInt16(offset, v, true) stores: the little-endian
image of the 16-bit twos-complement representation of v. -/
def int16le (v : ℤ) : List ℕ :=
  [((v % 65536).toNat) % 256, ((v % 65536).toNat) / 256]

/-- One step of floatTo16BitPCM: clamp, scale (negative by 0x8000,
non-negative by 0x7FFF), store as little-endian signed 16-bit. -/
def sampleBytes (s : ℚ) : List ℕ :=
  int16le (if clamp1 s < 0 then ratTrunc (clamp1 s * 32768)
           else ratTrunc (clamp1 s * 32767))

/-- floatTo16BitPCM over a whole sample array. -/
def floatTo16BitPCM (samples : List ℚ) : List ℕ := samples.flatMap sampleBytes

/-! ## encodeWAV -/

/-- encodeWAV from audioUtils: the 44-byte RIFF/WAVE header written field
by field at increasing offsets, followed by the converted samples. -/
def encodeWAV (samples : List ℚ) : List ℕ :=
  asciiBytes "RIFF" ++
  u32le (36 + samples.length * 2) ++
  asciiBytes "WAVE" ++
  asciiBytes "fmt " ++
  u32le 16 ++
  u16le 1 ++
  u16le NUM_CHANNELS ++
  u32le SAMPLE_RATE ++
  u32le (SAMPLE_RATE * NUM_CHANNELS * 2) ++
  u16le (NUM_CHANNELS * 2) ++
  u16le BIT_DEPTH ++
  asciiBytes "data" ++
  u32le (samples.length * 2) ++
  floatTo16BitPCM samples

/-! ## Base64 (arrayBufferToBase64 via window.btoa) -/

def base64Alphabet : List Char :=
  "ABCDEFGHIJKLMNOPQRSTUVWXYZabcdefghijklmnopqrstuvwxyz0123456789+/".toList

def b64char (idx : ℕ) : Char := base64Alphabet.getD idx 'A'

/-- Standard base64 of a byte sequence, as window.btoa produces for the
binary string built by arrayBufferToBase64: 3-byte groups become 4
alphabet characters, a trailing group of 1 or 2 bytes is padded with =. -/
def arrayBufferToBase64 : List ℕ → List Char
  | b0 :: b1 :: b2 :: rest =>
      b64char (b0 / 4) ::
      b64char (b0 % 4 * 16 + b1 / 16) ::
      b64char (b1 % 16 * 4 + b2 / 64) ::
      b64char (b2 % 64) ::
      arrayBufferToBase64 rest
  | [b0, b1] =>
      [b64char (b0 / 4), b64char (b0 % 4 * 16 + b1 / 16),
       b64char (b1 % 16 * 4), '=']
  | [b0] =>
      [b64char (b0 / 4), b64char (b0 % 4 * 16), '=', '=']
  | [] => []

/-! ## Chunk splitting (the loop of processLargeAudioFile)

The source walks i = 0, SAMPLES_PER_CHUNK, 2 * SAMPLES_PER_CHUNK, ...
while i < pcmData.length, and slices [i, min (i + SAMPLES_PER_CHUNK) n).
The fuel argument only bounds the iteration count; n / SAMPLES_PER_CHUNK
+ 1 iterations always suffice, which chunkRangesFrom_closed proves. -/

def chunkRangesFrom : ℕ → ℕ → ℕ → List (ℕ × ℕ)
  | 0, _, _ => []
  | fuel + 1, n, i =>
      if i < n then
        (i, min (i + SAMPLES_PER_CHUNK) n) ::
          chunkRangesFrom fuel n (i + SAMPLES_PER_CHUNK)
      else []

/-- The (start, end) sample ranges of the chunks of an n-sample input. -/
def chunkRanges (n : ℕ) : List (ℕ × ℕ) :=
  chunkRangesFrom (n / SAMPLES_PER_CHUNK + 1) n 0

/-- The core of processLargeAudioFile after decode and resample: slice
the PCM data chunk by chunk, encode each slice as WAV, then as base64. -/
def processLargeAudioFile (pcmData : List ℚ) : List (List Char) :=
  (chunkRanges pcmData.length).map
    (fun r => arrayBufferToBase64 (encodeWAV ((pcmData.drop r.1).take (r.2 - r.1))))

/-! ## Mime type resolution (App.tsx handleFileSelect, extension override)

file.name.split('.').pop() keeps the characters after the last dot (the
whole name if there is no dot); the result is lowercased and compared
against known audio extensions, overriding the browser-declared type. -/

/-- split('.').pop(): the suffix after the last '.', or the whole string
when no '.' occurs.  Folding with reset-on-dot computes exactly that. -/
def afterLastDot (cs : List Char) : List Char :=
  cs.foldl (fun acc c => if c = '.' then [] else acc ++ [c]) []

/-- The lowercased extension of a file name. -/
def extOf (fileName : String) : List Char :=
  (afterLastDot fileName.toList).map Char.toLower

/-- The mime type App.tsx passes downstream: forced from the extension
for m4a/mp4/mp3/wav, otherwise the declared file.type. -/
def resolveMimeType (fileName declaredType : String) : String :=
  let ext := extOf fileName
  if ext = ['m', '4', 'a'] ∨ ext = ['m', 'p', '4'] then "audio/mp4"
  else if ext = ['m', 'p', '3'] then "audio/mp3"
  else if ext = ['w', 'a', 'v'] then "audio/wav"
  else declaredType

/-! ## retryOperation (geminiService, latest revision)

The operation is modelled as a map from the attempt number to an
outcome; an error carries the combined message/JSON text the source
lowercases and searches for classification markers.  The returned list
records the waits (the setTimeout delays) performed before giving up or
succeeding. -/

/-- JS String.prototype.includes on character lists. -/
def hasSub (needle : List Char) : List Char → Bool
  | [] => needle.isEmpty
  | c :: rest => needle.isPrefixOf (c :: rest) || hasSub needle rest

/-- String.prototype.toLowerCase, on the characters of the error text. -/
def lowerChars (s : String) : List Char := s.toList.map Char.toLower

def isRateLimit (t : List Char) : Bool :=
  hasSub "429".toList t || hasSub "quota".toList t ||
    hasSub "resource_exhausted".toList t

def isNetworkError (t : List Char) : Bool :=
  hasSub "rpc failed".toList t || hasSub "xhr error".toList t ||
    hasSub "fetch failed".toList t || hasSub "500".toList t ||
    hasSub "503".toList t

/-- retryOperation(operation, retries, delay): on a classified error with
retries left, wait (delay for network errors, max delay 15000 for rate
limits), then recurse with retries - 1 and twice the wait; otherwise
rethrow.  Defaults at the call sites: retries = 5, delay = 2000. -/
def retryOperation (op : ℕ → Except String String) :
    ℕ → ℕ → ℕ → Except String String × List ℕ
  | retries, delay, attempt =>
    match op attempt with
    | .ok v => (.ok v, [])
    | .error e =>
      let t := lowerChars e
      match retries with
      | 0 => (.error e, [])
      | r + 1 =>
        if isNetworkError t || isRateLimit t then
          let waitTime := if isRateLimit t then max delay 15000 else delay
          let rest := retryOperation op r (waitTime * 2) (attempt + 1)
          (rest.1, waitTime :: rest.2)
        else (.error e, [])

/-! ## Transcription orchestration (App.tsx handleFileSelect loop)

For i = 0 .. chunks.length - 1 the loop awaits transcribeAudio on chunk
i, appends the fragment plus a newline to fullTranscript, and emits
Math.round(((i + 1) / chunks.length) * 100) as progress.  A thrown error
leaves the loop for the outer catch, which records the error; segments
after the failing one are never dispatched. -/

/-- Math.round for the non-negative values produced here. -/
def jsRound (q : ℚ) : ℤ := ⌊q + 1 / 2⌋

/-- The progress value emitted after k of total segments resolved. -/
def progressAt (k total : ℕ) : ℕ := (jsRound ((k : ℚ) / total * 100)).toNat

/-- Final orchestration state: the assembled transcript text, the
progress values emitted in order, and the terminal error if any. -/
structure RunState where
  text : List Char
  events : List ℕ
  error : Option String
deriving DecidableEq

/-- The loop body, recursing over the per-segment outcomes in index
order with the accumulated transcript. -/
def runSegments (total : ℕ) :
    List (Except String (List Char)) → ℕ → List Char → RunState
  | [], _, acc => ⟨acc, [], none⟩
  | r :: rest, i, acc =>
    match r with
    | .error e => ⟨acc, [], some e⟩
    | .ok part =>
      let s := runSegments total rest (i + 1) (acc ++ part ++ ['\n'])
      ⟨s.text, progressAt (i + 1) total :: s.events, s.error⟩

/-- Run the orchestration over all segment outcomes. -/
def runTranscription (results : List (Except String (List Char))) : RunState :=
  runSegments results.length results 0 []

/-! ## Spec-side definitions for the Segment Encoder claim

Built from the words of the specification, for comparison with the
encodeWAV embedding above: a 44-byte header with literal field values
(RIFF/WAVE tags, format-chunk size 16, PCM type 1, 1 channel, rate
16000, byte rate 32000, block align 2, 16 bits per sample, data tag,
data length sampleCount times 2) followed by the clamped and scaled
samples as little-endian signed 16-bit integers. -/

def wavHeaderSpec (sampleCount : ℕ) : List ℕ :=
  [82, 73, 70, 70] ++
  u32le (36 + sampleCount * 2) ++
  [87, 65, 86, 69,
   102, 109, 116, 32,
   16, 0, 0, 0,
   1, 0,
   1, 0,
   128, 62, 0, 0,
   0, 125, 0, 0,
   2, 0,
   16, 0,
   100, 97, 116, 97] ++
  u32le (sampleCount * 2)

/-- Spec wording: clamp to [-1, 1], scale negatives by 32768 and
non-negatives by 32767, write little-endian as a signed 16-bit value. -/
def pcm16SpecBytes (s : ℚ) : List ℕ :=
  let c := max (-1) (min 1 s)
  let v : ℤ := if c < 0 then ratTrunc (c * 32768) else ratTrunc (c * 32767)
  [((v % 65536).toNat) % 256, ((v % 65536).toNat) / 256]


/-! # Theorems -/

/-! ## Basic sanity facts about the embedding -/

example : SAMPLES_PER_CHUNK = 2880000 := by decide
example : chunkRanges 0 = [] := by decide
example : chunkRanges 1 = [(0, 1)] := by decide
example : chunkRanges 2880000 = [(0, 2880000)] := by decide
example : chunkRanges 2880001 = [(0, 2880000), (2880000, 2880001)] := by decide
example : (encodeWAV []).length = 44 := by decide
example : arrayBufferToBase64 [77, 97, 110] = "TWFu".toList := by decide
example : arrayBufferToBase64 [77, 97] = "TWE=".toList := by decide
example : arrayBufferToBase64 [77] = "TQ==".toList := by decide
example : wavHeaderSpec 0 =
    [82, 73, 70, 70, 36, 0, 0, 0, 87, 65, 86, 69, 102, 109, 116, 32,
     16, 0, 0, 0, 1, 0, 1, 0, 128, 62, 0, 0, 0, 125, 0, 0, 2, 0, 16, 0,
     100, 97, 116, 97, 0, 0, 0, 0] := by decide
example : (wavHeaderSpec 5).length = 44 := by decide
example : resolveMimeType "talk.M4A" "application/octet-stream" = "audio/mp4" := by decide
example : resolveMimeType "talk.ogg" "audio/ogg" = "audio/ogg" := by decide
example : isNetworkError (lowerChars "http 500") = true := by decide
example : isRateLimit (lowerChars "error 429: quota") = true := by decide
example :
    retryOperation (fun _ => .error "http 500") 3 1000 0 =
      (.error "http 500", [1000, 2000, 4000]) := rfl
example :
    (runTranscription [.ok "A".toList, .ok "B".toList, .ok "C".toList]).text =
      "A\nB\nC\n".toList := by decide

/-! ## Arithmetic characterization of the emitted progress values -/

/-- Math.round(k / t * 100) over the exact rationals, as a natural
number division. -/
lemma progressAt_eq (k t : ℕ) (ht : 0 < t) :
    progressAt k t = (200 * k + t) / (2 * t) := by
  have hq : (k : ℚ) / t * 100 + 1 / 2 = ((200 * k + t : ℕ) : ℚ) / ((2 * t : ℕ) : ℚ) := by
    have htq : (t : ℚ) ≠ 0 := Nat.cast_ne_zero.mpr ht.ne'
    field_simp
    ring
  unfold progressAt jsRound
  rw [hq, Int.floor_toNat, Nat.floor_div_eq_div]

example : progressAt 1 3 = 33 := by rw [progressAt_eq] ; norm_num
example : progressAt 2 3 = 67 := by rw [progressAt_eq] ; norm_num
example : progressAt 3 3 = 100 := by rw [progressAt_eq] ; norm_num

/-! ## Closed form of the chunk splitter -/

/-- With enough fuel for the remaining samples, the splitter loop from
position i produces the ranges (i + c*k, min (i + c*(k+1)) n) for
k < ceil((n - i) / c), where c = SAMPLES_PER_CHUNK. -/
lemma chunkRangesFrom_closed (fuel : ℕ) : ∀ n i : ℕ,
    (n - i + SAMPLES_PER_CHUNK - 1) / SAMPLES_PER_CHUNK ≤ fuel →
    chunkRangesFrom fuel n i =
      (List.range ((n - i + SAMPLES_PER_CHUNK - 1) / SAMPLES_PER_CHUNK)).map
        (fun k => (i + SAMPLES_PER_CHUNK * k, min (i + SAMPLES_PER_CHUNK * (k + 1)) n)) := by
  have hc : SAMPLES_PER_CHUNK = 2880000 := rfl
  induction fuel with
  | zero =>
    intro n i hle
    rw [Nat.le_zero.mp hle]
    rfl
  | succ fuel ih =>
    intro n i hle
    by_cases hin : i < n
    · have hstep : (n - i + SAMPLES_PER_CHUNK - 1) / SAMPLES_PER_CHUNK =
          (n - (i + SAMPLES_PER_CHUNK) + SAMPLES_PER_CHUNK - 1) / SAMPLES_PER_CHUNK + 1 := by
        rw [hc] at *
        omega
      have hle2 : (n - (i + SAMPLES_PER_CHUNK) + SAMPLES_PER_CHUNK - 1) / SAMPLES_PER_CHUNK ≤ fuel := by
        omega
      have hfun :
          ((fun k => (i + SAMPLES_PER_CHUNK * k, min (i + SAMPLES_PER_CHUNK * (k + 1)) n)) ∘
              Nat.succ) =
            fun k => (i + SAMPLES_PER_CHUNK + SAMPLES_PER_CHUNK * k,
              min (i + SAMPLES_PER_CHUNK + SAMPLES_PER_CHUNK * (k + 1)) n) := by
        funext k
        simp only [Function.comp_apply, Prod.mk.injEq]
        rw [hc]
        omega
      rw [chunkRangesFrom, if_pos hin, ih n (i + SAMPLES_PER_CHUNK) hle2, hstep,
        List.range_succ_eq_map, List.map_cons, List.map_map, hfun]
      simp
    · have hcount : (n - i + SAMPLES_PER_CHUNK - 1) / SAMPLES_PER_CHUNK = 0 := by
        rw [hc] at *
        omega
      rw [chunkRangesFrom, if_neg hin, hcount]
      rfl

/-- Closed form of chunkRanges: ceil(n / c) ranges of the form
(c*k, min (c*(k+1)) n). -/
lemma chunkRanges_closed (n : ℕ) :
    chunkRanges n =
      (List.range ((n + SAMPLES_PER_CHUNK - 1) / SAMPLES_PER_CHUNK)).map
        (fun k => (SAMPLES_PER_CHUNK * k, min (SAMPLES_PER_CHUNK * (k + 1)) n)) := by
  have h := chunkRangesFrom_closed (n / SAMPLES_PER_CHUNK + 1) n 0
    (by simp only [SAMPLES_PER_CHUNK, SAMPLE_RATE]; omega)
  simpa [chunkRanges] using h

lemma samplesPerChunk_eq : SAMPLES_PER_CHUNK = 2880000 := rfl

/-- Number of chunk ranges: the ceiling of n / SAMPLES_PER_CHUNK. -/
lemma chunkRanges_length (n : ℕ) :
    (chunkRanges n).length = (n + SAMPLES_PER_CHUNK - 1) / SAMPLES_PER_CHUNK := by
  rw [chunkRanges_closed, List.length_map, List.length_range]

/-- The k-th chunk range, for k below the count. -/
lemma chunkRanges_getD (n k : ℕ)
    (hk : k < (n + SAMPLES_PER_CHUNK - 1) / SAMPLES_PER_CHUNK) :
    (chunkRanges n).getD k (0, 0) =
      (SAMPLES_PER_CHUNK * k, min (SAMPLES_PER_CHUNK * (k + 1)) n) := by
  have hlen : k < (chunkRanges n).length := by rw [chunkRanges_length]; exact hk
  rw [List.getD_eq_getElem _ _ hlen]
  simp only [chunkRanges_closed, List.getElem_map, List.getElem_range]

/-- C1: for an n-sample CanonicalPcm at 16 kHz with 180 s segments, the
chunk splitter of processLargeAudioFile produces sample ranges that are
contiguous, non-overlapping and cover exactly [0, n); there are
floor(n / 2880000) full 2880000-sample segments, each of the first
floor(n / 2880000) ranges is full, and one shorter trailing segment
exists if and only if 2880000 does not divide n. -/
theorem c1_chunk_partition (n : ℕ) :
    (∀ k, k + 1 < (chunkRanges n).length →
        ((chunkRanges n).getD k (0, 0)).2 = ((chunkRanges n).getD (k + 1) (0, 0)).1) ∧
    (∀ j, j < n ↔ ∃ p ∈ chunkRanges n, p.1 ≤ j ∧ j < p.2) ∧
    (chunkRanges n).Pairwise (fun p q => p.2 ≤ q.1) ∧
    (chunkRanges n).length
        = n / SAMPLES_PER_CHUNK + (if SAMPLES_PER_CHUNK ∣ n then 0 else 1) ∧
    (∀ k, k < n / SAMPLES_PER_CHUNK →
        ((chunkRanges n).getD k (0, 0)).2 - ((chunkRanges n).getD k (0, 0)).1
          = SAMPLES_PER_CHUNK) ∧
    (¬ SAMPLES_PER_CHUNK ∣ n →
        ((chunkRanges n).getD ((chunkRanges n).length - 1) (0, 0)).2
            - ((chunkRanges n).getD ((chunkRanges n).length - 1) (0, 0)).1
          < SAMPLES_PER_CHUNK) := by
  have hc := samplesPerChunk_eq
  refine ⟨?_, ?_, ?_, ?_, ?_, ?_⟩
  · intro k hk
    rw [chunkRanges_length] at hk
    rw [chunkRanges_getD n k (by omega), chunkRanges_getD n (k + 1) hk]
    simp only
    rw [hc] at *
    omega
  · intro j
    constructor
    · intro hj
      refine ⟨(SAMPLES_PER_CHUNK * (j / SAMPLES_PER_CHUNK),
        min (SAMPLES_PER_CHUNK * (j / SAMPLES_PER_CHUNK + 1)) n), ?_, ?_, ?_⟩
      · rw [chunkRanges_closed]
        simp only [List.mem_map, List.mem_range]
        exact ⟨j / SAMPLES_PER_CHUNK, by rw [hc] at *; omega, rfl⟩
      · simp only
        rw [hc] at *
        omega
      · simp only
        rw [hc] at *
        omega
    · rintro ⟨p, hp, h1, h2⟩
      rw [chunkRanges_closed] at hp
      simp only [List.mem_map, List.mem_range] at hp
      obtain ⟨k, hk, rfl⟩ := hp
      simp only at h2
      rw [hc] at *
      omega
  · rw [chunkRanges_closed]
    refine List.Pairwise.map _ ?_ (List.pairwise_lt_range _)
    intro a b hab
    simp only
    rw [hc]
    omega
  · rw [chunkRanges_length]
    rcases em (SAMPLES_PER_CHUNK ∣ n) with h | h
    · rw [if_pos h]
      rw [hc] at *
      omega
    · rw [if_neg h]
      rw [hc] at *
      omega
  · intro k hk
    rw [chunkRanges_getD n k (by rw [hc] at *; omega)]
    simp only
    rw [hc] at *
    omega
  · intro hnd
    rw [chunkRanges_length]
    rw [chunkRanges_getD n _ (by rw [hc] at *; omega)]
    simp only
    rw [hc] at *
    omega

/-- C1 witness: a 7 minute mono 16 kHz input (6720000 samples) splits
into 3 segments, the last one shorter than a full segment. -/
theorem c1_chunk_partition_witness :
    (chunkRanges 6720000).length = 3 ∧
    ((chunkRanges 6720000).getD ((chunkRanges 6720000).length - 1) (0, 0)).2
        - ((chunkRanges 6720000).getD ((chunkRanges 6720000).length - 1) (0, 0)).1
      < SAMPLES_PER_CHUNK := by
  obtain ⟨-, -, -, h4, -, h6⟩ := c1_chunk_partition 6720000
  constructor
  · rw [h4]
    decide
  · exact h6 (by decide)

/-! ## Segment encoder: layout and totality -/

lemma sampleBytes_eq_spec : sampleBytes = pcm16SpecBytes := rfl

lemma asciiBytes_riff : asciiBytes "RIFF" = [82, 73, 70, 70] := by decide

lemma asciiBytes_wave : asciiBytes "WAVE" = [87, 65, 86, 69] := by decide

lemma asciiBytes_fmt : asciiBytes "fmt " = [102, 109, 116, 32] := by decide

lemma asciiBytes_data : asciiBytes "data" = [100, 97, 116, 97] := by decide

lemma u32le_16 : u32le 16 = [16, 0, 0, 0] := by decide

lemma u16le_one : u16le 1 = [1, 0] := by decide

lemma u16le_channels : u16le NUM_CHANNELS = [1, 0] := by decide

lemma u32le_rate : u32le SAMPLE_RATE = [128, 62, 0, 0] := by decide

lemma u32le_byteRate : u32le (SAMPLE_RATE * NUM_CHANNELS * 2) = [0, 125, 0, 0] := by decide

lemma u16le_blockAlign : u16le (NUM_CHANNELS * 2) = [2, 0] := by decide

lemma u16le_bits : u16le BIT_DEPTH = [16, 0] := by decide

/-- encodeWAV agrees with the header/data layout the spec describes. -/
lemma encodeWAV_eq_spec (samples : List ℚ) :
    encodeWAV samples = wavHeaderSpec samples.length ++ samples.flatMap pcm16SpecBytes := by
  unfold encodeWAV wavHeaderSpec floatTo16BitPCM
  rw [sampleBytes_eq_spec, asciiBytes_riff, asciiBytes_wave, asciiBytes_fmt, asciiBytes_data,
    u32le_16, u16le_one, u16le_channels, u32le_rate, u32le_byteRate, u16le_blockAlign,
    u16le_bits]
  simp [List.append_assoc]

lemma wavHeaderSpec_length (n : ℕ) : (wavHeaderSpec n).length = 44 := by
  unfold wavHeaderSpec u32le
  simp

lemma flatMap_sampleBytes_length (samples : List ℚ) :
    (samples.flatMap sampleBytes).length = 2 * samples.length := by
  induction samples with
  | nil => rfl
  | cons s rest ih =>
    simp only [List.flatMap_cons, List.length_append, ih, sampleBytes, int16le,
      List.length_cons, List.length_nil]
    ring

lemma encodeWAV_length (samples : List ℚ) :
    (encodeWAV samples).length = 44 + 2 * samples.length := by
  rw [encodeWAV_eq_spec, List.length_append, wavHeaderSpec_length, ← sampleBytes_eq_spec,
    flatMap_sampleBytes_length]

/-- C2: for a non-empty sample slice within [-1, 1], encodeWAV emits
exactly the 44-byte header with RIFF/WAVE tags, format-chunk size 16,
PCM type 1, 1 channel, rate 16000, byte rate 32000, block align 2, 16
bits per sample, the data tag and data length sampleCount times 2,
followed by the clamped samples scaled by 32768 (negative) or 32767
(non-negative) as little-endian signed 16-bit values. -/
theorem c2_encodeWAV_layout (samples : List ℚ) (_hne : samples ≠ [])
    (_hrange : ∀ s ∈ samples, -1 ≤ s ∧ s ≤ 1) :
    encodeWAV samples = wavHeaderSpec samples.length ++ samples.flatMap pcm16SpecBytes ∧
    (wavHeaderSpec samples.length).length = 44 :=
  ⟨encodeWAV_eq_spec samples, wavHeaderSpec_length samples.length⟩

/-- C2 witness: the single-sample slice [0]. -/
theorem c2_encodeWAV_layout_witness :
    encodeWAV [(0 : ℚ)] = wavHeaderSpec 1 ++ [(0 : ℚ)].flatMap pcm16SpecBytes ∧
    (wavHeaderSpec 1).length = 44 :=
  c2_encodeWAV_layout [(0 : ℚ)] (by decide) (by decide)

/-- C4 counterexample: on the empty sample slice the segment encoder
does not fail; it succeeds and returns the 44-byte header-only WAV. -/
theorem c4_empty_slice_succeeds :
    encodeWAV [] =
      [82, 73, 70, 70, 36, 0, 0, 0, 87, 65, 86, 69, 102, 109, 116, 32,
       16, 0, 0, 0, 1, 0, 1, 0, 128, 62, 0, 0, 0, 125, 0, 0, 2, 0, 16, 0,
       100, 97, 116, 97, 0, 0, 0, 0] := by decide

/-- C4 (amended): the segment encoder never fails.  On every input,
the empty slice included, it deterministically returns a well-formed
buffer of exactly 44 + 2 * sampleCount bytes starting with the RIFF
tag. -/
theorem c4_encoder_total (samples : List ℚ) :
    (encodeWAV samples).length = 44 + 2 * samples.length ∧
    (encodeWAV samples).take 4 = [82, 73, 70, 70] := by
  refine ⟨encodeWAV_length samples, ?_⟩
  rw [encodeWAV_eq_spec]
  rfl

/-! ## Size budget of encoded segments -/

/-- Base64 output length: 4 characters per 3 input bytes, rounded up. -/
lemma arrayBufferToBase64_length : ∀ bs : List ℕ,
    (arrayBufferToBase64 bs).length = 4 * ((bs.length + 2) / 3)
  | [] => rfl
  | [b0] => by
      rw [arrayBufferToBase64]
      simp only [List.length_cons, List.length_nil]
  | [b0, b1] => by
      rw [arrayBufferToBase64]
      simp only [List.length_cons, List.length_nil]
  | b0 :: b1 :: b2 :: rest => by
      rw [arrayBufferToBase64]
      simp only [List.length_cons, arrayBufferToBase64_length rest]
      omega

/-- Every chunk range spans at most SAMPLES_PER_CHUNK samples. -/
lemma chunkRanges_span_le (n : ℕ) : ∀ p ∈ chunkRanges n, p.2 - p.1 ≤ SAMPLES_PER_CHUNK := by
  intro p hp
  rw [chunkRanges_closed] at hp
  simp only [List.mem_map, List.mem_range] at hp
  obtain ⟨k, hk, rfl⟩ := hp
  simp only
  rw [samplesPerChunk_eq] at *
  omega

lemma chunkRanges_one : chunkRanges 1 = [(0, 1)] := by decide

/-- C3: every encoded (WAV plus base64) segment processLargeAudioFile
produces stays within the payload budget: at most 7680060 characters
(about 7.6 MB, from at most 5.76 MB of raw PCM plus header), below the
20 MB ceiling. -/
theorem c3_size_budget (pcm : List ℚ) (c : List Char)
    (hmem : c ∈ processLargeAudioFile pcm) :
    c.length ≤ 7680060 ∧ c.length < 20 * 1024 * 1024 := by
  unfold processLargeAudioFile at hmem
  simp only [List.mem_map] at hmem
  obtain ⟨r, hr, rfl⟩ := hmem
  have hsub := chunkRanges_span_le _ r hr
  have hslice : ((pcm.drop r.1).take (r.2 - r.1)).length ≤ SAMPLES_PER_CHUNK := by
    rw [List.length_take]
    exact le_trans (min_le_left _ _) hsub
  rw [arrayBufferToBase64_length, encodeWAV_length]
  rw [samplesPerChunk_eq] at hslice
  constructor
  · omega
  · omega

/-- C3 witness: the single chunk of a one-sample input. -/
theorem c3_size_budget_witness :
    (arrayBufferToBase64 (encodeWAV ((([(0 : ℚ)]).drop 0).take (1 - 0)))).length ≤ 7680060 ∧
    (arrayBufferToBase64 (encodeWAV ((([(0 : ℚ)]).drop 0).take (1 - 0)))).length
      < 20 * 1024 * 1024 :=
  c3_size_budget [(0 : ℚ)] _ (by simp [processLargeAudioFile, chunkRanges_one])

/-! ## Mime type override by file extension -/

/-- Anything before a final dot is discarded by split('.').pop(). -/
lemma afterLastDot_append_dot (pre suf : List Char) :
    afterLastDot (pre ++ '.' :: suf) = afterLastDot suf := by
  unfold afterLastDot
  rw [List.foldl_append, List.foldl_cons]
  simp

lemma toList_append_ext (pre : String) (suf : List Char) :
    (pre ++ ⟨'.' :: suf⟩).toList = pre.toList ++ ('.' :: suf) := by
  show (pre ++ ⟨'.' :: suf⟩).data = pre.data ++ ('.' :: suf)
  rw [String.data_append]

/-- C10: a file name ending in .m4a or .mp4 is forced to audio/mp4, one
ending in .mp3 to audio/mp3 and one ending in .wav to audio/wav, no
matter what media type the browser declared for the file. -/
theorem c10_mime_override (pre declared : String) :
    resolveMimeType (pre ++ ".m4a") declared = "audio/mp4" ∧
    resolveMimeType (pre ++ ".mp4") declared = "audio/mp4" ∧
    resolveMimeType (pre ++ ".mp3") declared = "audio/mp3" ∧
    resolveMimeType (pre ++ ".wav") declared = "audio/wav" := by
  have h1 : List.map Char.toLower (afterLastDot (pre.data ++ ['.', 'm', '4', 'a'])) =
      ['m', '4', 'a'] := by
    rw [afterLastDot_append_dot]
    decide
  have h2 : List.map Char.toLower (afterLastDot (pre.data ++ ['.', 'm', 'p', '4'])) =
      ['m', 'p', '4'] := by
    rw [afterLastDot_append_dot]
    decide
  have h3 : List.map Char.toLower (afterLastDot (pre.data ++ ['.', 'm', 'p', '3'])) =
      ['m', 'p', '3'] := by
    rw [afterLastDot_append_dot]
    decide
  have h4 : List.map Char.toLower (afterLastDot (pre.data ++ ['.', 'w', 'a', 'v'])) =
      ['w', 'a', 'v'] := by
    rw [afterLastDot_append_dot]
    decide
  refine ⟨?_, ?_, ?_, ?_⟩
  · simp [resolveMimeType, extOf, h1]
  · simp [resolveMimeType, extOf, h2]
  · simp [resolveMimeType, extOf, h3]
  · simp [resolveMimeType, extOf, h4]

/-! ## Orchestration: join, abort and progress behaviour -/

/-- Running the loop over a block of successful segments appends their
fragments, each followed by a newline, emits one progress value per
segment, and continues with the remaining outcomes. -/
lemma runSegments_ok_append (total : ℕ) (pre : List (List Char))
    (rest : List (Except String (List Char))) : ∀ (i : ℕ) (acc : List Char),
    runSegments total (pre.map Except.ok ++ rest) i acc =
      ⟨(runSegments total rest (i + pre.length)
          (acc ++ (pre.map (fun q => q ++ ['\n'])).flatten)).text,
       (List.range pre.length).map (fun k => progressAt (i + k + 1) total) ++
         (runSegments total rest (i + pre.length)
           (acc ++ (pre.map (fun q => q ++ ['\n'])).flatten)).events,
       (runSegments total rest (i + pre.length)
         (acc ++ (pre.map (fun q => q ++ ['\n'])).flatten)).error⟩ := by
  induction pre with
  | nil =>
    intro i acc
    simp
  | cons p pre ih =>
    intro i acc
    have hfun : ((fun k => progressAt (i + k + 1) total) ∘ Nat.succ) =
        fun k => progressAt (i + 1 + k + 1) total := by
      funext k
      simp only [Function.comp_apply]
      congr 1
      omega
    simp only [List.map_cons, List.cons_append, runSegments, List.flatten_cons,
      List.length_cons, List.append_eq]
    rw [ih (i + 1) (acc ++ p ++ ['\n'])]
    rw [List.range_succ_eq_map, List.map_cons, List.map_map, hfun]
    have hacc : acc ++ p ++ ['\n'] ++ (pre.map (fun q => q ++ ['\n'])).flatten =
        acc ++ (p ++ ['\n'] ++ (pre.map (fun q => q ++ ['\n'])).flatten) := by
      simp [List.append_assoc]
    have hidx : i + 1 + pre.length = i + (pre.length + 1) := by omega
    rw [hacc, hidx]
    simp

/-- When every segment succeeds the loop terminates with no error, the
fragments joined in index order each followed by a newline, and one
progress value per segment. -/
lemma runTranscription_all_ok (frags : List (List Char)) :
    runTranscription (frags.map Except.ok) =
      ⟨(frags.map (fun q => q ++ ['\n'])).flatten,
       (List.range frags.length).map (fun k => progressAt (k + 1) frags.length),
       none⟩ := by
  have h := runSegments_ok_append
    ((frags.map Except.ok : List (Except String (List Char)))).length frags [] 0 []
  rw [List.append_nil] at h
  unfold runTranscription
  rw [h]
  simp [runSegments]

/-- C5 (amended): when all segments resolve successfully the transcript
is the concatenation of all fragment texts in strict sequence order,
each followed by a single newline, and the run ends without error. -/
theorem c5_join_newline (frags : List (List Char)) :
    (runTranscription (frags.map Except.ok)).error = none ∧
    (runTranscription (frags.map Except.ok)).text =
      (frags.map (fun q => q ++ ['\n'])).flatten := by
  rw [runTranscription_all_ok]
  exact ⟨rfl, rfl⟩

/-- C5 counterexample: three successful fragments A, B, C assemble to
the transcript "A\nB\nC\n", which differs from the "A\n\nB\n\nC" the
claim states. -/
theorem c5_paragraph_break_refuted :
    (runTranscription
        [Except.ok "A".toList, Except.ok "B".toList, Except.ok "C".toList]).text
      = "A\nB\nC\n".toList ∧
    "A\nB\nC\n".toList ≠ "A\n\nB\n\nC".toList := by
  constructor
  · decide
  · decide

/-- C6 (amended): when segment k fails, the orchestration aborts with
that error: the transcript holds exactly the fragments of the earlier
segments (each with its newline), only their progress values were
emitted, no placeholder is substituted, and the outcomes of the later
segments never enter the result. -/
theorem c6_abort_on_failure (pre : List (List Char)) (e : String)
    (post : List (Except String (List Char))) :
    runTranscription (pre.map Except.ok ++ Except.error e :: post) =
      ⟨(pre.map (fun q => q ++ ['\n'])).flatten,
       (List.range pre.length).map
         (fun k => progressAt (k + 1) (pre.length + 1 + post.length)),
       some e⟩ := by
  unfold runTranscription
  have htotal : (pre.map Except.ok ++ Except.error e :: post).length
      = pre.length + 1 + post.length := by
    simp
    omega
  rw [htotal, runSegments_ok_append]
  simp [runSegments]

/-- C6 counterexample: with outcomes ok A, error, ok C the job aborts
carrying the error, and the transcript is "A\n": segment 3 is dropped
and no placeholder appears for segment 2. -/
theorem c6_no_placeholder_refuted :
    (runTranscription
        [Except.ok "A".toList, Except.error "boom", Except.ok "C".toList]).error
      = some "boom" ∧
    (runTranscription
        [Except.ok "A".toList, Except.error "boom", Except.ok "C".toList]).text
      = "A\n".toList := by
  constructor
  · decide
  · decide

lemma progressAt_mono (n : ℕ) (hn : 0 < n) {a b : ℕ} (hab : a ≤ b) :
    progressAt a n ≤ progressAt b n := by
  rw [progressAt_eq _ _ hn, progressAt_eq _ _ hn]
  apply Nat.div_le_div_right
  omega

lemma progressAt_self (n : ℕ) (hn : 0 < n) : progressAt n n = 100 := by
  rw [progressAt_eq _ _ hn]
  have h : 200 * n + n = 2 * n * 100 + n := by ring
  rw [h, Nat.mul_add_div (by omega), Nat.div_eq_of_lt (by omega)]

/-- C7 (amended): after each of the n segments resolves, the loop emits
Math.round(resolved / n * 100); the emitted sequence is monotonically
non-decreasing and, when every segment succeeds, its final value is
exactly 100 (not a value strictly below 100). -/
theorem c7_progress_monotone (frags : List (List Char)) (hne : frags ≠ []) :
    (runTranscription (frags.map Except.ok)).events =
      (List.range frags.length).map (fun k => progressAt (k + 1) frags.length) ∧
    (runTranscription (frags.map Except.ok)).events.Pairwise (· ≤ ·) ∧
    (runTranscription (frags.map Except.ok)).events.getLast? = some 100 := by
  have hn : 0 < frags.length := List.length_pos.mpr hne
  rw [runTranscription_all_ok]
  refine ⟨rfl, ?_, ?_⟩
  · refine List.Pairwise.map _ ?_ (List.pairwise_lt_range _)
    intro a b hab
    exact progressAt_mono _ hn (by omega)
  · obtain ⟨m, hm⟩ : ∃ m, frags.length = m + 1 := ⟨frags.length - 1, by omega⟩
    simp only [hm, List.range_succ, List.map_append, List.map_cons, List.map_nil,
      List.getLast?_concat]
    rw [progressAt_self _ (by omega)]

/-- C7 witness: the three-fragment run A, B, C. -/
theorem c7_progress_monotone_witness :
    (runTranscription (["A".toList, "B".toList, "C".toList].map Except.ok)).events =
      (List.range (["A".toList, "B".toList, "C".toList] : List (List Char)).length).map
        (fun k => progressAt (k + 1) (["A".toList, "B".toList, "C".toList] : List (List Char)).length) ∧
    (runTranscription (["A".toList, "B".toList, "C".toList].map Except.ok)).events.Pairwise (· ≤ ·) ∧
    (runTranscription (["A".toList, "B".toList, "C".toList].map Except.ok)).events.getLast? = some 100 :=
  c7_progress_monotone ["A".toList, "B".toList, "C".toList] (by decide)

/-- C7 counterexample: for three successful segments the emitted values
are 33, 67 and 100: the final value emitted by the loop equals 100
rather than staying strictly below 100, and the first value is the
rounded 33, not the exact 100 / 3. -/
theorem c7_final_value_is_100 :
    (runTranscription
        [Except.ok "A".toList, Except.ok "B".toList, Except.ok "C".toList]).events
      = [33, 67, 100] := by
  have h := runTranscription_all_ok ["A".toList, "B".toList, "C".toList]
  have e1 : progressAt 1 3 = 33 := by rw [progressAt_eq] ; norm_num
  have e2 : progressAt 2 3 = 67 := by rw [progressAt_eq] ; norm_num
  have e3 : progressAt 3 3 = 100 := by rw [progressAt_eq] ; norm_num
  rw [show ([Except.ok "A".toList, Except.ok "B".toList, Except.ok "C".toList] :
      List (Except String (List Char))) =
        (["A".toList, "B".toList, "C".toList] : List (List Char)).map Except.ok from rfl,
    h]
  simp only [show List.range (["A".toList, "B".toList, "C".toList] :
      List (List Char)).length = [0, 1, 2] from by decide, List.map_cons, List.map_nil]
  norm_num [e1, e2, e3]

/-! ## Retry policy at the remote-call boundary -/

/-- C8: an operation failing with a transient network / 5xx error is
retried with exponential backoff, the delay doubling on each attempt,
up to the retries cap, after which the error propagates; an error that
is neither network- nor rate-limit-classified propagates immediately
with no retry and no wait. -/
theorem c8_retry_backoff (e e2 : String)
    (hnet : isNetworkError (lowerChars e) = true)
    (hnrl : isRateLimit (lowerChars e) = false)
    (h2net : isNetworkError (lowerChars e2) = false)
    (h2rl : isRateLimit (lowerChars e2) = false) :
    (∀ retries delay attempt,
      retryOperation (fun _ => Except.error e) retries delay attempt =
        (Except.error e, (List.range retries).map fun k => 2 ^ k * delay)) ∧
    (∀ (op : ℕ → Except String String) retries delay attempt,
      op attempt = Except.error e2 →
        retryOperation op retries delay attempt = (Except.error e2, [])) := by
  constructor
  · intro retries
    induction retries with
    | zero =>
      intro delay attempt
      simp [retryOperation]
    | succ r ih =>
      intro delay attempt
      have hfun : ((fun k => 2 ^ k * delay) ∘ Nat.succ) =
          fun k => 2 ^ k * (delay * 2) := by
        funext k
        simp only [Function.comp_apply, Nat.succ_eq_add_one, pow_succ]
        ring
      rw [retryOperation]
      simp only [hnet, hnrl, Bool.true_or, if_true, Bool.false_eq_true, if_false]
      rw [ih (delay * 2) (attempt + 1)]
      rw [List.range_succ_eq_map, List.map_cons, List.map_map, hfun]
      simp
  · intro op retries delay attempt hop
    cases retries with
    | zero => simp [retryOperation, hop]
    | succ r => simp [retryOperation, hop, h2net, h2rl]

/-- C8 witness: a 500-classified error at the call-site defaults
retries = 5, delay = 2000, and an unclassified error. -/
theorem c8_retry_backoff_witness :
    retryOperation (fun _ => Except.error "http 500") 5 2000 0 =
      (Except.error "http 500", [2000, 4000, 8000, 16000, 32000]) ∧
    retryOperation (fun _ => Except.error "invalid file") 5 2000 0 =
      (Except.error "invalid file", []) := by
  have h := c8_retry_backoff "http 500" "invalid file"
    (by decide) (by decide) (by decide) (by decide)
  constructor
  · have h1 := h.1 5 2000 0
    rw [h1]
    norm_num [List.range_succ]
  · exact h.2 (fun _ => Except.error "invalid file") 5 2000 0 rfl

/-- C9: an operation failing with a rate-limit / quota error is retried
with a floor of 15000 ms under each wait (longer than the plain network
delay), the wait doubling from max(delay, 15000); once the retry budget
is exhausted the error propagates, and a segment whose transcription
propagates such an error makes the whole orchestration run abort with
it. -/
theorem c9_rate_limit_backoff (e : String)
    (hrl : isRateLimit (lowerChars e) = true) :
    (∀ retries delay attempt,
      retryOperation (fun _ => Except.error e) retries delay attempt =
        (Except.error e, (List.range retries).map fun k => 2 ^ k * max delay 15000)) ∧
    (∀ retries delay attempt w,
      w ∈ (retryOperation (fun _ => Except.error e) retries delay attempt).2 →
        15000 ≤ w) ∧
    (∀ (pre : List (List Char)) (post : List (Except String (List Char))),
      (runTranscription (pre.map Except.ok ++ Except.error e :: post)).error = some e) := by
  have hmain : ∀ retries delay attempt,
      retryOperation (fun _ => Except.error e) retries delay attempt =
        (Except.error e, (List.range retries).map fun k => 2 ^ k * max delay 15000) := by
    intro retries
    induction retries with
    | zero =>
      intro delay attempt
      simp [retryOperation]
    | succ r ih =>
      intro delay attempt
      have hmax : max (max delay 15000 * 2) 15000 = max delay 15000 * 2 := by omega
      have hfun : ((fun k => 2 ^ k * max delay 15000) ∘ Nat.succ) =
          fun k => 2 ^ k * (max delay 15000 * 2) := by
        funext k
        simp only [Function.comp_apply, Nat.succ_eq_add_one, pow_succ]
        ring
      rw [retryOperation]
      simp only [hrl, Bool.or_true, if_true]
      rw [ih (max delay 15000 * 2) (attempt + 1), hmax]
      rw [List.range_succ_eq_map, List.map_cons, List.map_map, hfun]
      simp
  refine ⟨hmain, ?_, ?_⟩
  · intro retries delay attempt w hw
    rw [hmain retries delay attempt] at hw
    simp only [List.mem_map, List.mem_range] at hw
    obtain ⟨k, -, rfl⟩ := hw
    calc 15000 ≤ max delay 15000 := le_max_right _ _
    _ ≤ 2 ^ k * max delay 15000 :=
        Nat.le_mul_of_pos_left _ (pow_pos (by norm_num) k)
  · intro pre post
    unfold runTranscription
    rw [runSegments_ok_append]
    simp [runSegments]

/-- C9 witness: a 429 quota error, retries = 5 and delay = 2000 as at
the call sites, and a two-segment run whose second segment fails with
it. -/
theorem c9_rate_limit_backoff_witness :
    retryOperation (fun _ => Except.error "error 429: quota exceeded") 5 2000 0 =
      (Except.error "error 429: quota exceeded",
        [15000, 30000, 60000, 120000, 240000]) ∧
    (runTranscription
        [Except.ok "A".toList, Except.error "error 429: quota exceeded"]).error
      = some "error 429: quota exceeded" := by
  have h := c9_rate_limit_backoff "error 429: quota exceeded" (by decide)
  constructor
  · have h1 := h.1 5 2000 0
    rw [h1]
    norm_num [List.range_succ]
  · exact h.2.2 ["A".toList] []
